import Mathlib

/-!
Shallow embedding of the export-docusaurus-pdf pipeline.

The browser, the DOM and the filesystem are modelled as explicit
environment records; each service method becomes a Lean function over
those environments.  Fallible calls return `Except Unit _` (an `error`
models a thrown JS exception), and `try`/`catch` blocks become matches
that absorb the error branch.
-/

namespace DocuPdf

/-- A heading extracted from a rendered page: `{level, text, id}`
(`PdfExporter.extractHeadings`).  `text` stands for the already trimmed
text content. -/
structure Heading where
  level : Nat
  text : String
  id : String
deriving DecidableEq

/-- The record produced by `PdfExporter.exportPage` before the page index
is attached: `{path, headings, url}`. -/
structure PageArtifact where
  path : String
  headings : List Heading
  url : String
deriving DecidableEq

/-- One element of the export metadata array
`{path, headings, url, pageIndex}` handed from `exportPages` to
`PdfMerger.merge`. -/
structure ExportMeta where
  path : String
  headings : List Heading
  url : String
  pageIndex : Nat
deriving DecidableEq

/-! Section: PdfExporter: per page environment and `exportPage` -/

/-- Environment seen by `PdfExporter` for a single page visit.
`gotoOk` — `page.goto` resolves; `countOk` — the two locator counts in
`isDocListPage` resolve; `docCardCount`/`pageContentCount` — the counted
elements; `headingsEvalOk` and `headings` — the heading extraction
evaluate call; `skipElemHeight` — `offsetHeight` of the
`skipToContent` element when `querySelector` finds one; `heightEvalOk` —
the height evaluate call resolves; `pdfOk` — `page.pdf` resolves. -/
structure PageEnv where
  gotoOk : Bool
  countOk : Bool
  docCardCount : Nat
  pageContentCount : Nat
  headingsEvalOk : Bool
  headings : List Heading
  skipElemHeight : Option Nat
  heightEvalOk : Bool
  pdfOk : Bool
deriving DecidableEq

/-- `PdfExporter.isDocListPage`: counts document cards and top level
content blocks; the page is a listing page when the card count is
positive and equals the content count; any error is caught and yields
`false`. -/
def isDocListPage (e : PageEnv) : Bool :=
  if e.countOk then
    decide (0 < e.docCardCount) && decide (e.docCardCount = e.pageContentCount)
  else
    false

/-- `PdfExporter.calculatePageHeight`: evaluates
`element ? element.offsetHeight + 60 : 0` over the content selector; if
the evaluation itself throws, the catch branch returns the default
`1000`. -/
def calculatePageHeight (e : PageEnv) : Nat :=
  if e.heightEvalOk then
    match e.skipElemHeight with
    | some h => h + 60
    | none => 0
  else
    1000

/-- `PdfExporter.extractHeadings`: headings with empty (trimmed) text are
discarded; an error in the evaluation is caught and yields `[]`. -/
def extractHeadings (e : PageEnv) : List Heading :=
  if e.headingsEvalOk then e.headings.filter (fun h => h.text ≠ emptyText) else []
where
  /-- The empty string compared against a trimmed heading text. -/
  emptyText : String := ""

/-- Result of one `exportPage` call: the returned value (`error` models a
thrown `PdfExportError`, `ok none` the skip signal `null`) together with
whether `replaceInternalLinks` was invoked on this visit. -/
structure ExportPageResult where
  result : Except Unit (Option PageArtifact)
  linksReplaced : Bool

/-- `PdfExporter.exportPage`: navigate, apply styles (errors absorbed),
optionally rewrite internal links when `baseUrl` is truthy (errors
absorbed), skip listing pages, extract headings, compute the height and
print; `goto` and `page.pdf` failures become a thrown error. -/
def exportPage (e : PageEnv) (url outPath : String) (baseUrl : Option String) :
    ExportPageResult :=
  if e.gotoOk then
    let replaced := baseUrl.isSome
    if isDocListPage e then
      { result := Except.ok none, linksReplaced := replaced }
    else
      let hs := extractHeadings e
      let _height := calculatePageHeight e
      if e.pdfOk then
        { result := Except.ok (some { path := outPath, headings := hs, url := url }),
          linksReplaced := replaced }
      else
        { result := Except.error (), linksReplaced := replaced }
  else
    { result := Except.error (), linksReplaced := false }

/-- The condition under which `exportPage` returns an artifact (rather
than skipping or throwing). -/
def pageSuccess (e : PageEnv) : Bool :=
  e.gotoOk && !isDocListPage e && e.pdfOk

/-- Loop body of `PdfExporter.exportPages`: `i` is the position in the
URL list (used for the artifact file name), `cur` the next page index;
a thrown export error is caught and the URL skipped, a skip signal
consumes no page index.  Also accumulates whether any visit invoked
`replaceInternalLinks`. -/
def exportPagesGo (baseUrl : Option String) (outputDir : String) :
    List (String × PageEnv) → Nat → Nat → List ExportMeta × Bool
  | [], _, _ => ([], false)
  | (url, e) :: rest, i, cur =>
    let outPath := outputDir ++ slash ++ toString i ++ pdfExt
    let r := exportPage e url outPath baseUrl
    match r.result with
    | Except.ok (some a) =>
      let pr := exportPagesGo baseUrl outputDir rest (i + 1) (cur + 1)
      ({ path := a.path, headings := a.headings, url := a.url, pageIndex := cur } :: pr.1,
        r.linksReplaced || pr.2)
    | Except.ok none =>
      let pr := exportPagesGo baseUrl outputDir rest (i + 1) cur
      (pr.1, r.linksReplaced || pr.2)
    | Except.error _ =>
      let pr := exportPagesGo baseUrl outputDir rest (i + 1) cur
      (pr.1, r.linksReplaced || pr.2)
where
  /-- Path separator used by `path.join`. -/
  slash : String := "/"
  /-- Artifact file extension. -/
  pdfExt : String := ".pdf"

/-- `PdfExporter.exportPages`: process the URL list strictly in order,
starting with file index 0 and page index 0. -/
def exportPages (ps : List (String × PageEnv)) (outputDir : String)
    (baseUrl : Option String) : List ExportMeta × Bool :=
  exportPagesGo baseUrl outputDir ps 0 0

/-! Section: SidebarExpander -/

/-- One collapsible sidebar node as the expander sees it.
`active` — its class attribute contains `--active` (the `getAttribute`
call is guarded by `.catch`, so a read failure is part of this flag);
`subCountOk` — the `subItem.count()` call over its children resolves;
`visible` — the result of `ensureVisible` for its clickable control
(scroll failures are absorbed inside `ensureVisible`); `clicks` — the
outcome of each configured click strategy, in order. -/
inductive NavTree where
  | mk (active : Bool) (subCountOk : Bool) (visible : Bool)
      (clicks : List Bool) (children : List NavTree)

/-- `SidebarExpander.clickWithRetry`: try the configured strategies in
order; return on the first success; rethrow the error of the last
strategy when all fail (an empty strategy list just returns). -/
def clickWithRetry (clicks : List Bool) : Except Unit Unit :=
  if clicks.isEmpty || clicks.any id then Except.ok () else Except.error ()

/-- Per item body of `SidebarExpander.expandSubSidebar` for one child
node: returns the number of successful click expansions performed in the
subtree and whether the body ran to completion (`false` = an error was
thrown, to be caught by the per item `try`).  An `active` item only
recurses; a non visible item is skipped with a warning; otherwise click
with retry and recurse.  The recursion into the children models
`expandSubSidebar(item, level + 1)`, whose own outer `try` absorbs every
error (a failing `subItem.count()` loses that subtree only). -/
def childBody : NavTree → Nat × Bool
  | NavTree.mk active subCountOk visible clicks children =>
    let sub : Nat :=
      if subCountOk then
        (children.attach.map (fun c => (childBody c.1).1)).sum
      else 0
    if active then (sub, true)
    else if !visible then (0, true)
    else
      match clickWithRetry clicks with
      | Except.error _ => (0, false)
      | Except.ok _ => (1 + sub, true)
decreasing_by
  have := List.sizeOf_lt_of_mem c.2
  simp only [NavTree.mk.sizeOf_spec]
  omega

/-- `SidebarExpander.expandSubSidebar` on a node: enumerate its children
(`subItem.count()` may throw, caught by the outer `try` of the function,
losing the subtree), run each child body inside a per item `try` whose
catch just continues.  It never throws. -/
def expandSubOn (subCountOk : Bool) (children : List NavTree) : Nat :=
  if subCountOk then (children.map (fun c => (childBody c).1)).sum else 0

/-- Body of the top level loop of `SidebarExpander.expandAllManually`,
inside its per item `try`: unlike the nested levels, the result of
`ensureVisible` is ignored here (the click is attempted regardless). -/
def topItemBody : NavTree → Nat × Bool
  | NavTree.mk active subCountOk _visible clicks children =>
    if active then (expandSubOn subCountOk children, true)
    else
      match clickWithRetry clicks with
      | Except.error _ => (0, false)
      | Except.ok _ => (1 + expandSubOn subCountOk children, true)

/-- Environment of one `expandAll` run: `jsEvalOk` — the bulk
`page.evaluate` of `expandAllWithJavaScript` resolves; `topCountOk` —
the `ulItem.count()` call at the start of `expandAllManually` resolves
(this call sits outside every `try`); `topItems` — the top level
sidebar nodes. -/
structure SidebarEnv where
  jsEvalOk : Bool
  topCountOk : Bool
  topItems : List NavTree

/-- `SidebarExpander.expandAllWithJavaScript`: fully wrapped in
`try`/`catch`, returns whether the bulk expansion ran. -/
def expandAllWithJavaScript (env : SidebarEnv) : Bool :=
  env.jsEvalOk

/-- `SidebarExpander.expandAllManually`: count the top level items (an
error here propagates — this await is not guarded), then process each
item inside a per item `try` whose catch continues with the next item.
Returns the number of successful click expansions. -/
def expandAllManually (env : SidebarEnv) : Except Unit Nat :=
  if env.topCountOk then
    Except.ok ((env.topItems.map (fun t => (topItemBody t).1)).sum)
  else
    Except.error ()

/-- `SidebarExpander.expandAll`: bulk JavaScript pass, manual recursive
pass, bulk pass again, settle wait.  Only the manual pass can throw. -/
def expandAll (env : SidebarEnv) : Except Unit Nat :=
  let _firstBulk := expandAllWithJavaScript env
  match expandAllManually env with
  | Except.error e => Except.error e
  | Except.ok n =>
    let _secondBulk := expandAllWithJavaScript env
    Except.ok n

/-! Section: LinkCollector -/

/-- Environment of one `collectAllLinks` run.  `gotoOk` — the initial
`page.goto` resolves; `sidebarFound` — `waitForSelector` on the top
level sidebar marker succeeds within its timeout; `sidebarCountOk` — the
informational `ulItem.count()` call resolves; `sidebarAnchors` — the
`href` of every anchor matching the content link selector after
expansion, in document order; `sidebarEvalOk` — that `$$eval` resolves;
`flatAnchors`/`flatEvalOk` — the same for the flat fallback extraction;
`expander` — the sidebar expander environment. -/
structure CollectorEnv where
  gotoOk : Bool
  sidebarFound : Bool
  sidebarCountOk : Bool
  sidebarAnchors : List String
  sidebarEvalOk : Bool
  flatAnchors : List String
  flatEvalOk : Bool
  expander : SidebarEnv

/-- `LinkCollector.collectLinksAlternative`: map every matching anchor of
the whole document to its `href`; a failure becomes a thrown
`LinkCollectionError`. -/
def collectLinksAlternative (env : CollectorEnv) : Except Unit (List String) :=
  if env.flatEvalOk then Except.ok env.flatAnchors else Except.error ()

/-- `LinkCollector.collectAllLinks`: load the base URL, wait for the
sidebar marker (fall back to the flat strategy when it never appears),
count the sections, expand all menus, wait, then map every matching
anchor to its `href`.  No de-duplication is performed on either path. -/
def collectAllLinks (env : CollectorEnv) (_baseUrl : String) :
    Except Unit (List String) :=
  if !env.gotoOk then Except.error ()
  else if !env.sidebarFound then collectLinksAlternative env
  else if !env.sidebarCountOk then Except.error ()
  else
    match expandAll env.expander with
    | Except.error e => Except.error e
    | Except.ok _ =>
      if env.sidebarEvalOk then Except.ok env.sidebarAnchors else Except.error ()

/-! Section: PdfMerger: the merge loop -/

/-- The two situations in which `PdfMerger.merge` throws a
`PdfMergeError`: no source files, or a failure while producing the final
output (everything reaching the outer `catch`). -/
inductive MergeErr where
  | noSources
  | writeFailed
deriving DecidableEq

/-- Loop body of `PdfMerger.merge`: for each metadata record, load its
artifact (`load` returns the page count, or `none` when
`PDFDocument.load`/`copyPages` fails), rewrite the record page index to
the running offset and advance the offset by the pages copied; a failed
artifact is logged and skipped, leaving its record untouched.  Returns
the rewritten metadata list and the final page count of the output
document. -/
def mergeLoop (load : String → Option Nat) :
    List ExportMeta → Nat → List ExportMeta × Nat
  | [], off => ([], off)
  | m :: rest, off =>
    match load m.path with
    | none =>
      let pr := mergeLoop load rest off
      (m :: pr.1, pr.2)
    | some k =>
      let pr := mergeLoop load rest (off + k)
      ({ m with pageIndex := off } :: pr.1, pr.2)

/-- `PdfMerger.merge`: throw `noSources` when the metadata argument is
missing or empty; run the merge loop (per artifact failures are
non fatal); then ensure the output directory and write the file —
`writeOk = false` models any failure of that final phase, wrapped by the
outer `catch` into a `PdfMergeError`. -/
def merge (load : String → Option Nat) (writeOk : Bool)
    (metadata : Option (List ExportMeta)) :
    Except MergeErr (List ExportMeta × Nat) :=
  match metadata with
  | none => Except.error MergeErr.noSources
  | some ms =>
    if ms.length = 0 then Except.error MergeErr.noSources
    else if writeOk then Except.ok (mergeLoop load ms 0)
    else Except.error MergeErr.writeFailed

/-! Section: PdfMerger: bookmark hierarchy (`buildBookmarkHierarchy`) -/

/-- One entry of the `bookmarkInfos` array built by the first pass of
`buildBookmarkHierarchy`: the bookmark dictionary title, its heading
level and the index of its parent entry (`none` models the sentinel
`-1`). -/
structure BmInfo where
  title : String
  level : Nat
  parentIndex : Option Nat
deriving DecidableEq

instance : Inhabited BmInfo := ⟨{ title := "", level := 0, parentIndex := none }⟩

/-- Read a JS array slot: out of range and cleared slots are
`undefined`. -/
def stGet : List (Option Nat) → Nat → Option Nat
  | [], _ => none
  | x :: _, 0 => x
  | _ :: xs, n + 1 => stGet xs n

/-- JS array assignment `stack[i] = v`: grows the array with holes when
`i` is beyond the current length. -/
def stSet : List (Option Nat) → Nat → Nat → List (Option Nat)
  | [], 0, v => [some v]
  | [], n + 1, v => none :: stSet [] n v
  | _ :: xs, 0, v => some v :: xs
  | x :: xs, n + 1, v => x :: stSet xs n v

/-- The clearing loop `for (let i = level; i < stack.length; i++)
stack[i] = undefined`. -/
def stClear : List (Option Nat) → Nat → List (Option Nat)
  | [], _ => []
  | _ :: xs, 0 => none :: stClear xs 0
  | x :: xs, n + 1 => x :: stClear xs n

/-- First pass body of `buildBookmarkHierarchy` for one heading: the
parent index is read from the stack at `level - 2` when `level > 1`
(`-1`, i.e. `none`, otherwise); the new entry is appended; the stack
slot `level - 1` is set to the new index and every deeper slot is
cleared. -/
def bmStep (st : List BmInfo × List (Option Nat)) (h : Heading) :
    List BmInfo × List (Option Nat) :=
  let parentIndex := if 1 < h.level then stGet st.2 (h.level - 2) else none
  let infos := st.1 ++ [{ title := h.text, level := h.level, parentIndex := parentIndex }]
  let stack := stClear (stSet st.2 (h.level - 1) st.1.length) h.level
  (infos, stack)

/-- The whole first pass over the flat heading sequence. -/
def firstPass (hs : List Heading) : List BmInfo :=
  (hs.foldl bmStep ([], [])).1

/-- The flat heading sequence fed to the first pass: the headings of
every metadata record in order, skipping records whose page index is out
of range of the merged page array. -/
def flattenHeadings (pagesLen : Nat) (metadata : List ExportMeta) : List Heading :=
  metadata.foldr (fun m acc => if m.pageIndex < pagesLen then m.headings ++ acc else acc) []

/-- `bookmarkInfos[i]` (out of range reads give the default entry; the
second pass only indexes in range). -/
def infoAt (infos : List BmInfo) (i : Nat) : BmInfo :=
  infos.getD i default

/-- The sibling test of the second pass linking loop:
`bookmarkInfos[j].level === info.level &&
bookmarkInfos[j].parentIndex === info.parentIndex`. -/
def KeyEq (infos : List BmInfo) (i j : Nat) : Prop :=
  (infoAt infos j).level = (infoAt infos i).level ∧
    (infoAt infos j).parentIndex = (infoAt infos i).parentIndex

instance (infos : List BmInfo) (i j : Nat) : Decidable (KeyEq infos i j) :=
  inferInstanceAs (Decidable (_ ∧ _))

/-- The backwards scan `for (let j = i - 1; j >= 0; j--)` looking for
the previous bookmark at the same level with the same parent; the
argument is the exclusive upper bound of the scan. -/
def findPrevAux (infos : List BmInfo) (i : Nat) : Nat → Option Nat
  | 0 => none
  | j + 1 => if KeyEq infos i j then some j else findPrevAux infos i j

/-- The previous sibling found for entry `i` by the linking loop. -/
def findPrev (infos : List BmInfo) (i : Nat) : Option Nat :=
  findPrevAux infos i i

/-- Forward scan from `k` with the given number of remaining candidates,
looking for the first entry with the same level and parent as `j`.
(Not part of the source: the closed form of the `Next` links the second
pass produces.) -/
def findNextAux (infos : List BmInfo) (j : Nat) : Nat → Nat → Option Nat
  | _, 0 => none
  | k, fuel + 1 => if KeyEq infos j k then some k else findNextAux infos j (k + 1) fuel

/-- The next sibling of entry `j`: the first later entry with the same
level and parent, within the info array. -/
def findNext (infos : List BmInfo) (j : Nat) : Option Nat :=
  findNextAux infos j (j + 1) (infos.length - (j + 1))

/-- The link fields the second pass writes into the bookmark
dictionaries, read off as functions from entry index: `First`, `Last`
and `Count` of a parent entry, `Prev` and `Next` of a sibling chain. -/
structure LinkMaps where
  first : Nat → Option Nat
  last : Nat → Option Nat
  count : Nat → Nat
  prev : Nat → Option Nat
  next : Nat → Option Nat

/-- Pointwise update of an optional-value field store. -/
def updO (f : Nat → Option Nat) (k : Nat) (v : Option Nat) : Nat → Option Nat :=
  fun x => if x = k then v else f x

/-- Pointwise update of the `Count` store. -/
def updC (f : Nat → Nat) (k : Nat) (v : Nat) : Nat → Nat :=
  fun x => if x = k then v else f x

/-- Second pass body for entry `i`: when it has a parent, set the
parent `First` (only if unset), overwrite the parent `Last` and bump the
parent `Count`; when `i > 0` and a previous sibling is found, set this
the `Prev` of this entry and the `Next` of that sibling. -/
def linkStep (infos : List BmInfo) (m : LinkMaps) (i : Nat) : LinkMaps :=
  let inf := infoAt infos i
  let m1 :=
    match inf.parentIndex with
    | some p =>
      let mFirst := if m.first p = none then { m with first := updO m.first p (some i) } else m
      let mLast := { mFirst with last := updO mFirst.last p (some i) }
      { mLast with count := updC mLast.count p (mLast.count p + 1) }
    | none => m
  if 0 < i then
    match findPrev infos i with
    | some j => { m1 with prev := updO m1.prev i (some j), next := updO m1.next j (some i) }
    | none => m1
  else m1

/-- All link fields start out unset (`null` in the fresh dictionaries,
`Count` at 0). -/
def linkInit : LinkMaps :=
  { first := fun _ => none, last := fun _ => none, count := fun _ => 0,
    prev := fun _ => none, next := fun _ => none }

/-- The whole second pass: `for (let i = 0; i < bookmarkInfos.length;
i++)`. -/
def linkPass (infos : List BmInfo) : LinkMaps :=
  (List.range infos.length).foldl (linkStep infos) linkInit

/-- The root filter returned by `buildBookmarkHierarchy`: entries at
level 1 or without a parent. -/
def rootsOf (infos : List BmInfo) : List BmInfo :=
  infos.filter (fun inf => inf.level = 1 || inf.parentIndex == none)

/-- `PdfMerger.buildBookmarkHierarchy`: flatten the per page heading
lists (skipping out of range records), run the first pass, run the
linking pass, and return the roots. -/
def buildBookmarkHierarchy (pagesLen : Nat) (metadata : List ExportMeta) :
    List BmInfo × LinkMaps × List BmInfo :=
  let infos := firstPass (flattenHeadings pagesLen metadata)
  (infos, linkPass infos, rootsOf infos)

/-- Traverse `Next` links starting from an optional entry, with fuel. -/
def chainFrom (nxt : Nat → Option Nat) : Option Nat → Nat → List Nat
  | _, 0 => []
  | none, _ => []
  | some i, fuel + 1 => i :: chainFrom nxt (nxt i) fuel

/-- The children of entry `p` as reached from its `First` link via
`Next` links (fuel bounded by the entry count). -/
def childChain (infos : List BmInfo) (p : Nat) : List Nat :=
  chainFrom (linkPass infos).next ((linkPass infos).first p) infos.length

/-- The entries recorded as children of `p` (in creation order). -/
def childrenList (infos : List BmInfo) (p : Nat) : List Nat :=
  (List.range infos.length).filter (fun i => decide ((infoAt infos i).parentIndex = some p))

/-- Invariant of the first pass stack: every set slot `m` holds the
index of an existing entry whose level is `m + 1` (slot `m` is the stack
position for level `m + 1`). -/
def StackInv (infos : List BmInfo) (stack : List (Option Nat)) : Prop :=
  ∀ m j, stGet stack m = some j →
    j < infos.length ∧ (infoAt infos j).level = m + 1

/-- Invariant of the built entry array: every recorded parent exists and
sits exactly one level above its child. -/
def ParentInv (infos : List BmInfo) : Prop :=
  ∀ i, i < infos.length → ∀ p, (infoAt infos i).parentIndex = some p →
    p < infos.length ∧ (infoAt infos p).level + 1 = (infoAt infos i).level

/-- Level discipline of the claim: after the first heading at level 1,
each level is at least 1 and climbs by at most one step. -/
def niceFrom : Nat → List Nat → Bool
  | _, [] => true
  | prev, l :: ls => decide (1 ≤ l) && decide (l ≤ prev + 1) && niceFrom l ls

/-- A heading level sequence that only increases by exactly one or
returns to an ancestor level, starting at level 1. -/
def niceLevels : List Nat → Bool
  | [] => true
  | l :: ls => (l == 1) && niceFrom l ls

/-- Whether an `Except` is in its error branch (a thrown error). -/
def isThrown {ε α : Type} : Except ε α → Bool
  | Except.error _ => true
  | Except.ok _ => false

/-! Section: DocusaurusPdfExporter: the pipeline orchestrator -/

/-- Fatal error classes of `DocusaurusPdfExporter.export`, by the step
that threw them. -/
inductive ExpErr where
  | launchFailed
  | connectFailed
  | collectFailed
  | noPages
  | mergeFailed
deriving DecidableEq

/-- Environment of one full `export` run.  `launchOk` —
`chromium.launch` resolves (on failure `this.browser` stays null);
`contextOk` — `newContext`/`newPage` resolve; `verifyOk` — the
reachability `goto` of `verifyDocusaurusRunning` resolves; `tempDir` —
the created temporary directory; `collector` — the link collection
environment; `pageEnv` — the per URL page environment; `mergeLoad` and
`writeOk` — the merge environment. -/
structure OrchEnv where
  launchOk : Bool
  contextOk : Bool
  verifyOk : Bool
  tempDir : String
  collector : CollectorEnv
  pageEnv : String → PageEnv
  mergeLoad : String → Option Nat
  writeOk : Bool
  cleanTempFiles : Bool

/-- Observable trace of one `export` run: its outcome, whether the
browser was closed by the `finally` block, whether `PdfMerger.merge` was
invoked, and whether any page visit invoked `replaceInternalLinks`. -/
structure RunTrace where
  result : Except ExpErr String
  browserClosed : Bool
  mergeAttempted : Bool
  linksReplaced : Bool

/-- `DocusaurusPdfExporter.export`: initialize the browser, verify the
site, collect links, export the pages (with `baseUrl` left undefined —
the call site passes only two arguments), fail fatally when nothing was
exported, merge, clean up.  The `finally` block closes the browser
whenever `this.browser` was assigned, on success and on every rethrown
failure. -/
def exporterExport (env : OrchEnv) (_url outputPath : String) : RunTrace :=
  if !env.launchOk then
    { result := Except.error ExpErr.launchFailed, browserClosed := false,
      mergeAttempted := false, linksReplaced := false }
  else if !env.contextOk then
    { result := Except.error ExpErr.launchFailed, browserClosed := true,
      mergeAttempted := false, linksReplaced := false }
  else if !env.verifyOk then
    { result := Except.error ExpErr.connectFailed, browserClosed := true,
      mergeAttempted := false, linksReplaced := false }
  else
    match collectAllLinks env.collector _url with
    | Except.error _ =>
      { result := Except.error ExpErr.collectFailed, browserClosed := true,
        mergeAttempted := false, linksReplaced := false }
    | Except.ok links =>
      let pr := exportPages (links.map (fun u => (u, env.pageEnv u))) env.tempDir none
      if pr.1.length = 0 then
        { result := Except.error ExpErr.noPages, browserClosed := true,
          mergeAttempted := false, linksReplaced := pr.2 }
      else
        match merge env.mergeLoad env.writeOk (some pr.1) with
        | Except.error _ =>
          { result := Except.error ExpErr.mergeFailed, browserClosed := true,
            mergeAttempted := true, linksReplaced := pr.2 }
        | Except.ok _ =>
          { result := Except.ok outputPath, browserClosed := true,
            mergeAttempted := true, linksReplaced := pr.2 }

/-! Section: Concrete environments used as test inputs -/

/-- A sample page URL. -/
def urlA : String := "u"

/-- A sample output path. -/
def outA : String := "o"

/-- A sample base URL. -/
def baseA : String := "b"

/-- A sample temporary directory. -/
def tmpA : String := "t"

/-- A page whose card count and content block count are both zero (for
example a page whose `article > section.row` region is empty). -/
def zeroCardPage : PageEnv :=
  { gotoOk := true, countOk := true, docCardCount := 0, pageContentCount := 0,
    headingsEvalOk := true, headings := [], skipElemHeight := some 400,
    heightEvalOk := true, pdfOk := true }

/-- A page visit on which the height evaluation runs but the content
selector matches no element. -/
def noContentElemPage : PageEnv :=
  { gotoOk := true, countOk := true, docCardCount := 0, pageContentCount := 3,
    headingsEvalOk := true, headings := [], skipElemHeight := none,
    heightEvalOk := true, pdfOk := true }

/-- A documentation index page: two document cards, two content blocks. -/
def cardListPage : PageEnv :=
  { gotoOk := true, countOk := true, docCardCount := 2, pageContentCount := 2,
    headingsEvalOk := true, headings := [], skipElemHeight := some 300,
    heightEvalOk := true, pdfOk := true }

/-- An ordinary content page that exports successfully. -/
def plainPage : PageEnv :=
  { gotoOk := true, countOk := true, docCardCount := 0, pageContentCount := 2,
    headingsEvalOk := true, headings := [{ level := 1, text := urlA, id := baseA }],
    skipElemHeight := some 500, heightEvalOk := true, pdfOk := true }

/-- A sidebar whose top level enumeration succeeds but whose first node
fails every click strategy while the second node expands. -/
def stubbornSidebar : SidebarEnv :=
  { jsEvalOk := false, topCountOk := true,
    topItems := [NavTree.mk false true true [false, false, false] [],
      NavTree.mk false true true [false, true] []] }

/-- A sidebar whose top level `count()` call rejects (for example the
page context was destroyed). -/
def brokenCountSidebar : SidebarEnv :=
  { jsEvalOk := true, topCountOk := false, topItems := [] }

/-- A navigation whose expanded sidebar holds two anchors with the same
`href` (the same document linked from two places). -/
def dupLinkCollector : CollectorEnv :=
  { gotoOk := true, sidebarFound := true, sidebarCountOk := true,
    sidebarAnchors := [urlA, urlA], sidebarEvalOk := true,
    flatAnchors := [], flatEvalOk := true,
    expander := { jsEvalOk := true, topCountOk := true, topItems := [] } }

/-- A site without the expected sidebar shape and with no matching
anchors at all: link collection falls back and returns the empty list. -/
def emptyFlatCollector : CollectorEnv :=
  { gotoOk := true, sidebarFound := false, sidebarCountOk := true,
    sidebarAnchors := [], sidebarEvalOk := true,
    flatAnchors := [], flatEvalOk := true,
    expander := { jsEvalOk := true, topCountOk := true, topItems := [] } }

/-- A run in which no page at all survives export: the collector finds
no links, so zero pages are exported. -/
def noPagesEnv : OrchEnv :=
  { launchOk := true, contextOk := true, verifyOk := true, tempDir := tmpA,
    collector := emptyFlatCollector, pageEnv := fun _ => plainPage,
    mergeLoad := fun _ => some 1, writeOk := true, cleanTempFiles := true }

/-- A sample artifact path. -/
def pathA : String := "p"

/-- Another sample artifact path. -/
def pathB : String := "q"

/-- A loader that finds a 2 page artifact at `pathA` and a 3 page
artifact elsewhere. -/
def demoLoad : String → Option Nat :=
  fun s => if s = pathA then some 2 else some 3

/-- Two export records to merge. -/
def demoMetas : List ExportMeta :=
  [{ path := pathA, headings := [], url := urlA, pageIndex := 7 },
    { path := pathB, headings := [], url := urlA, pageIndex := 9 }]

/-- A flat heading sequence (levels 1, 2, 2) as extracted from one
page: a title with two sections. -/
def demoHeadings : List Heading :=
  [{ level := 1, text := urlA, id := baseA },
    { level := 2, text := outA, id := baseA },
    { level := 2, text := tmpA, id := baseA }]

/-- A run that exports one page and then fails while writing the merged
output. -/
def failingWriteEnv : OrchEnv :=
  { launchOk := true, contextOk := true, verifyOk := true, tempDir := tmpA,
    collector := { emptyFlatCollector with flatAnchors := [urlA] },
    pageEnv := fun _ => plainPage,
    mergeLoad := fun _ => some 1, writeOk := false, cleanTempFiles := true }

/-! Section: Theorems -/

/-- C6 counterexample: on a page where the document card count equals the
top level content block count but both are zero, `exportPage` does not
return the skip signal — it produces an artifact — because
`isDocListPage` additionally requires the card count to be positive.
This refutes the claim that the skip happens exactly when the two counts
are equal. -/
theorem C6_skip_counterexample :
    zeroCardPage.docCardCount = zeroCardPage.pageContentCount ∧
    isDocListPage zeroCardPage = false ∧
    (exportPage zeroCardPage urlA outA none).result =
      Except.ok (some { path := outA, headings := [], url := urlA }) :=
  ⟨rfl, rfl, rfl⟩

/-- C6 (amended): `exportPage` returns the skip signal (`null`) exactly
when navigation succeeded and the page is classified as a listing page,
and that classification holds exactly when the element counting
succeeded, the document card count is positive, and it equals the top
level content block count. -/
theorem C6_skip_iff (e : PageEnv) (u o : String) (b : Option String) :
    (isDocListPage e = true ↔
      e.countOk = true ∧ 0 < e.docCardCount ∧ e.docCardCount = e.pageContentCount) ∧
    ((exportPage e u o b).result = Except.ok none ↔
      e.gotoOk = true ∧ isDocListPage e = true) := by
  constructor
  · cases hc : e.countOk <;> simp [isDocListPage, hc]
  · cases hg : e.gotoOk <;> cases hl : isDocListPage e <;> cases hp : e.pdfOk <;>
      simp [exportPage, hg, hl, hp]

/-- C6 witness: a page with two document cards and two content blocks is
classified as a listing page and `exportPage` skips it. -/
theorem C6_skip_iff_witness :
    isDocListPage cardListPage = true ∧
    (exportPage cardListPage urlA outA none).result = Except.ok none := by
  have h1 : isDocListPage cardListPage = true :=
    (C6_skip_iff cardListPage urlA outA none).1.mpr ⟨rfl, by decide, rfl⟩
  exact ⟨h1, (C6_skip_iff cardListPage urlA outA none).2.mpr ⟨rfl, h1⟩⟩

/-- C7 counterexample: when the height evaluation runs but the content
selector matches no element, `calculatePageHeight` returns `0` — not the
element height plus 60, not the fallback 1000, and not a positive
value.  This refutes the claim that the returned height is always
positive (and that a failed measurement always yields the default). -/
theorem C7_height_counterexample :
    calculatePageHeight noContentElemPage = 0 ∧
    ¬ 0 < calculatePageHeight noContentElemPage := by
  exact ⟨rfl, by decide⟩

/-- C7 (amended): `calculatePageHeight` returns the measured element
height plus a fixed 60 pixel margin when the content element is found,
`0` when the evaluation runs but the selector matches no element, and
the fixed default 1000 when the evaluation itself throws; the result is
positive whenever the element was found or the evaluation threw, but not
in the missing element case. -/
theorem C7_height_amended (e : PageEnv) :
    (∀ h, e.heightEvalOk = true → e.skipElemHeight = some h →
      calculatePageHeight e = h + 60) ∧
    (e.heightEvalOk = true → e.skipElemHeight = none → calculatePageHeight e = 0) ∧
    (e.heightEvalOk = false → calculatePageHeight e = 1000) ∧
    ((e.skipElemHeight.isSome = true ∨ e.heightEvalOk = false) →
      0 < calculatePageHeight e) := by
  refine ⟨?_, ?_, ?_, ?_⟩
  · intro h he hs; simp [calculatePageHeight, he, hs]
  · intro he hs; simp [calculatePageHeight, he, hs]
  · intro he; simp [calculatePageHeight, he]
  · intro hd
    cases he : e.heightEvalOk
    · simp [calculatePageHeight, he]
    · rcases hd with hd | hd
      · rcases hs : e.skipElemHeight with _ | h
        · rw [hs] at hd; simp at hd
        · simp [calculatePageHeight, he, hs]
      · rw [hd] at he; cases he

/-- C7 witness: on a page whose content element measures 500 pixels the
computed height is 560 and positive. -/
theorem C7_height_witness :
    calculatePageHeight plainPage = 500 + 60 ∧ 0 < calculatePageHeight plainPage :=
  ⟨(C7_height_amended plainPage).1 500 rfl rfl,
    (C7_height_amended plainPage).2.2.2 (Or.inl rfl)⟩

/-- C5 counterexample: a sidebar whose expanded navigation holds two
anchors with the same `href` yields that URL twice in the returned list:
`collectAllLinks` performs no de-duplication on either path, refuting
the claim that no URL appears twice in the returned list. -/
theorem C5_dedup_counterexample :
    collectAllLinks dupLinkCollector baseA = Except.ok [urlA, urlA] ∧
    ¬ ([urlA, urlA] : List String).Nodup := by
  refine ⟨rfl, ?_⟩
  simp

/-- C5 (amended): `collectAllLinks` returns the `href` of every matched
anchor in document order, one entry per anchor element — on the primary
path the anchors of the expanded sidebar, on the fallback path the flat
anchors of the whole document.  Order is preserved but duplicates are
not removed: two anchor elements with equal `href` produce two equal
entries. -/
theorem C5_links_amended (env : CollectorEnv) (b : String) :
    (env.gotoOk = true → env.sidebarFound = true → env.sidebarCountOk = true →
      env.expander.topCountOk = true → env.sidebarEvalOk = true →
      collectAllLinks env b = Except.ok env.sidebarAnchors) ∧
    (env.gotoOk = true → env.sidebarFound = false → env.flatEvalOk = true →
      collectAllLinks env b = Except.ok env.flatAnchors) := by
  constructor
  · intro h1 h2 h3 h4 h5
    simp [collectAllLinks, h1, h2, h3, h5, expandAll, expandAllManually, h4]
  · intro h1 h2 h3
    simp [collectAllLinks, collectLinksAlternative, h1, h2, h3]

/-- C5 witness: the primary extraction path returns exactly the sidebar
anchor list of the environment. -/
theorem C5_links_witness :
    collectAllLinks dupLinkCollector baseA = Except.ok dupLinkCollector.sidebarAnchors :=
  (C5_links_amended dupLinkCollector baseA).1 rfl rfl rfl rfl rfl

/-- C8 counterexample: when the unguarded top level `count()` call of
`expandAllManually` rejects, the error propagates out of `expandAll` to
its caller, refuting the claim that `expandAll` never raises for every
navigation state. -/
theorem C8_expand_counterexample :
    expandAll brokenCountSidebar = Except.error () := rfl

/-- C8 (amended): provided the initial top level enumeration succeeds,
`expandAll` returns normally for every tree of node behaviours — every
single node expansion failure (strategies exhausted, or control not
visible) is caught, that node is skipped, and processing continues with
the remaining nodes. -/
theorem C8_expand_amended (env : SidebarEnv) (h : env.topCountOk = true) :
    expandAll env = Except.ok ((env.topItems.map (fun t => (topItemBody t).1)).sum) := by
  simp [expandAll, expandAllManually, h]

/-- C8 witness: a sidebar whose first node fails all three click
strategies still returns normally, having expanded the second node. -/
theorem C8_expand_witness :
    stubbornSidebar.topCountOk = true ∧
    expandAll stubbornSidebar = Except.ok 1 :=
  ⟨rfl, C8_expand_amended stubbornSidebar rfl⟩

/-- C9: on every exit path of `DocusaurusPdfExporter.export` after the
browser was launched — successful return, connectivity failure, link
collection failure, the zero pages fatal error, or a merge failure — the
`finally` block closes the browser before the call returns or the error
is re-raised. -/
theorem C9_browser_closed (env : OrchEnv) (u o : String)
    (h : env.launchOk = true) :
    (exporterExport env u o).browserClosed = true := by
  unfold exporterExport
  rw [h]
  simp only [Bool.not_true, Bool.false_eq_true, if_false]
  split
  · rfl
  · split
    · rfl
    · split
      · rfl
      · split
        · rfl
        · split <;> rfl

/-- C9 witness: a run whose final write fails still closes the browser
while re-raising the merge error. -/
theorem C9_browser_closed_witness :
    failingWriteEnv.launchOk = true ∧
    (exporterExport failingWriteEnv urlA outA).browserClosed = true ∧
    (exporterExport failingWriteEnv urlA outA).result =
      Except.error ExpErr.mergeFailed :=
  ⟨rfl, C9_browser_closed failingWriteEnv urlA outA rfl, rfl⟩

/-- Helper: a page visit with no base URL never invokes
`replaceInternalLinks` (the `if (baseUrl)` guard is false). -/
theorem exportPage_no_base (e : PageEnv) (u o : String) :
    (exportPage e u o none).linksReplaced = false := by
  cases hg : e.gotoOk <;> cases hl : isDocListPage e <;> cases hp : e.pdfOk <;>
    simp [exportPage, hg, hl, hp]

/-- Helper: the batch loop with no base URL records no link rewriting. -/
theorem exportPagesGo_no_base (d : String) :
    ∀ ps i cur, (exportPagesGo none d ps i cur).2 = false := by
  intro ps
  induction ps with
  | nil => intro i cur; rfl
  | cons p rest ih =>
    intro i cur
    obtain ⟨url, e⟩ := p
    have hr := exportPage_no_base e url
      (d ++ exportPagesGo.slash ++ toString i ++ exportPagesGo.pdfExt)
    unfold exportPagesGo
    dsimp only
    split <;> simp_all

/-- C10: a full pipeline run never rewrites internal links: the
orchestrator calls `exportPages` without a base URL argument, so the
`baseUrl` guard inside `exportPage` is always false and
`replaceInternalLinks` is never invoked; in general, `exportPages`
without a base URL records no link rewriting. -/
theorem C10_no_link_rewrite (env : OrchEnv) (u o : String) :
    (exporterExport env u o).linksReplaced = false ∧
    ∀ ps d, (exportPages ps d none).2 = false := by
  have hgen : ∀ ps (d : String), (exportPages ps d none).2 = false := by
    intro ps d; exact exportPagesGo_no_base d ps 0 0
  refine ⟨?_, hgen⟩
  unfold exporterExport
  split
  · rfl
  · split
    · rfl
    · split
      · rfl
      · split
        · rfl
        · dsimp only
          split
          · exact hgen _ _
          · split <;> exact hgen _ _

/-- C4: `PdfMerger.merge` throws a `PdfMergeError` exactly when the
metadata list is missing or empty or the final output write fails — all
per artifact load and copy failures are non fatal; independently, the
orchestrator raises its fatal `noPages` error, without attempting a
merge, whenever zero pages were successfully exported. -/
theorem C4_fatal_conditions :
    (∀ (load : String → Option Nat) (w : Bool) (md : Option (List ExportMeta)),
      isThrown (merge load w md) = true ↔ (md = none ∨ md = some [] ∨ w = false)) ∧
    (∀ (env : OrchEnv) (u o : String) (links : List String),
      env.launchOk = true → env.contextOk = true → env.verifyOk = true →
      collectAllLinks env.collector u = Except.ok links →
      (exportPages (links.map (fun l => (l, env.pageEnv l))) env.tempDir none).1.length = 0 →
      (exporterExport env u o).result = Except.error ExpErr.noPages ∧
      (exporterExport env u o).mergeAttempted = false) := by
  constructor
  · intro load w md
    rcases md with _ | ms
    · simp [merge, isThrown]
    · rcases ms with _ | ⟨m, rest⟩
      · simp [merge, isThrown]
      · cases w <;> simp [merge, isThrown]
  · intro env u o links h1 h2 h3 hcol hlen
    unfold exporterExport
    rw [h1, h2, h3, hcol]
    simp only [Bool.not_true, Bool.false_eq_true, if_false]
    rw [if_pos]
    · exact ⟨rfl, rfl⟩
    · exact hlen

/-- C4 witness: an empty metadata list throws the nothing-to-merge
error, and a run in which the collector finds no links fails fatally
with the zero pages error before any merge is attempted. -/
theorem C4_fatal_conditions_witness :
    isThrown (merge (fun _ => some 1) true (some [])) = true ∧
    (exporterExport noPagesEnv urlA outA).result = Except.error ExpErr.noPages ∧
    (exporterExport noPagesEnv urlA outA).mergeAttempted = false := by
  refine ⟨(C4_fatal_conditions.1 (fun _ => some 1) true (some [])).mpr
    (Or.inr (Or.inl rfl)), ?_, ?_⟩
  · exact (C4_fatal_conditions.2 noPagesEnv urlA outA [] rfl rfl rfl rfl rfl).1
  · exact (C4_fatal_conditions.2 noPagesEnv urlA outA [] rfl rfl rfl rfl rfl).2

/-- Helper: the three possible outcomes of one `exportPage` call, as a
function of the page environment. -/
theorem exportPage_result_char (e : PageEnv) (u o : String) (b : Option String) :
    (exportPage e u o b).result =
      if pageSuccess e then
        Except.ok (some { path := o, headings := extractHeadings e, url := u })
      else if e.gotoOk && isDocListPage e then Except.ok none
      else Except.error () := by
  cases hg : e.gotoOk <;> cases hl : isDocListPage e <;> cases hp : e.pdfOk <;>
    simp [exportPage, pageSuccess, hg, hl, hp]

/-- Helper: full characterisation of the batch export loop, for an
arbitrary starting page index `cur`: the produced records are exactly
the successful visits in input order, and their page indices are the
consecutive integers starting at `cur`. -/
theorem exportPagesGo_spec (b : Option String) (d : String) :
    ∀ ps (i cur : Nat),
      (exportPagesGo b d ps i cur).1.length =
        (ps.filter (fun p => pageSuccess p.2)).length ∧
      (exportPagesGo b d ps i cur).1.map ExportMeta.pageIndex =
        List.range' cur ((exportPagesGo b d ps i cur).1.length) ∧
      (exportPagesGo b d ps i cur).1.map ExportMeta.url =
        (ps.filter (fun p => pageSuccess p.2)).map Prod.fst := by
  intro ps
  induction ps with
  | nil => intro i cur; exact ⟨rfl, rfl, rfl⟩
  | cons p rest ih =>
    intro i cur
    obtain ⟨url, e⟩ := p
    have hres := exportPage_result_char e url
      (d ++ exportPagesGo.slash ++ toString i ++ exportPagesGo.pdfExt) b
    unfold exportPagesGo
    dsimp only
    rw [hres]
    by_cases hs : pageSuccess e = true
    · rw [if_pos hs]
      dsimp only
      obtain ⟨l1, l2, l3⟩ := ih (i + 1) (cur + 1)
      refine ⟨?_, ?_, ?_⟩
      · simp [l1, List.filter_cons, hs]
      · simp [l2, List.range'_succ]
      · simp [l3, List.filter_cons, hs]
    · have hs' : pageSuccess e = false := by simpa using hs
      rw [if_neg hs]
      by_cases hk : (e.gotoOk && isDocListPage e) = true
      · rw [if_pos hk]
        dsimp only
        obtain ⟨l1, l2, l3⟩ := ih (i + 1) cur
        exact ⟨by simp [l1, List.filter_cons, hs'], by simp [l2],
          by simp [l3, List.filter_cons, hs']⟩
      · rw [if_neg hk]
        dsimp only
        obtain ⟨l1, l2, l3⟩ := ih (i + 1) cur
        exact ⟨by simp [l1, List.filter_cons, hs'], by simp [l2],
          by simp [l3, List.filter_cons, hs']⟩

/-- C3: for `M` input URLs of which `K` are skipped (listing pages) or
fail, `exportPages` returns exactly `M − K` records, in input order,
whose page indices are the contiguous range `0 .. M−K−1`: a skipped or
failed URL consumes no page index and aborts nothing, and each surviving
page index of each surviving record is the count of prior successful exports. -/
theorem C3_page_indices (ps : List (String × PageEnv)) (d : String)
    (b : Option String) :
    (exportPages ps d b).1.length =
      ps.length - (ps.filter (fun p => !pageSuccess p.2)).length ∧
    (exportPages ps d b).1.map ExportMeta.pageIndex =
      List.range ((exportPages ps d b).1.length) ∧
    (exportPages ps d b).1.map ExportMeta.url =
      (ps.filter (fun p => pageSuccess p.2)).map Prod.fst := by
  obtain ⟨l1, l2, l3⟩ := exportPagesGo_spec b d ps 0 0
  have hsplit := @List.length_eq_length_filter_add _ ps (fun p => pageSuccess p.2)
  unfold exportPages
  refine ⟨?_, ?_, l3⟩
  · rw [l1]; omega
  · rw [l2, List.range_eq_range']

/-- Helper: the merge loop keeps one output record per input record —
failed artifacts are skipped, never dropped from the metadata. -/
theorem mergeLoop_length (load : String → Option Nat) :
    ∀ l off, (mergeLoop load l off).1.length = l.length := by
  intro l
  induction l with
  | nil => intro off; rfl
  | cons m rest ih =>
    intro off
    unfold mergeLoop
    cases hl : load m.path <;> dsimp only <;> simp [ih]

/-- Helper: the final page count of the merge loop is the starting
offset plus the page counts of the artifacts that loaded. -/
theorem mergeLoop_total (load : String → Option Nat) :
    ∀ l off, (mergeLoop load l off).2 =
      off + (l.filterMap (fun m => load m.path)).sum := by
  intro l
  induction l with
  | nil => intro off; simp [mergeLoop]
  | cons m rest ih =>
    intro off
    unfold mergeLoop
    cases hl : load m.path <;>
      (dsimp only; simp [ih, List.filterMap_cons, hl]; try omega)

/-- Helper: the `i`-th record after the merge loop: rewritten to the
offset plus the pages of the prior successful artifacts when its own
artifact loads, untouched when it fails. -/
theorem mergeLoop_get (load : String → Option Nat) :
    ∀ (l : List ExportMeta) (off i : Nat),
      (mergeLoop load l off).1[i]? =
        (l[i]?).map (fun m =>
          if (load m.path).isSome then
            { m with pageIndex :=
                off + ((l.take i).filterMap (fun mm => load mm.path)).sum }
          else m) := by
  intro l
  induction l with
  | nil => intro off i; simp [mergeLoop]
  | cons m rest ih =>
    intro off i
    unfold mergeLoop
    cases hl : load m.path <;> dsimp only
    · cases i with
      | zero => simp [hl]
      | succ j =>
        rw [List.getElem?_cons_succ, List.getElem?_cons_succ, ih off j]
        simp [List.take_succ_cons, List.filterMap_cons, hl]
    · cases i with
      | zero => simp [hl]
      | succ j =>
        rw [List.getElem?_cons_succ, List.getElem?_cons_succ]
        rename_i k
        rw [ih (off + k) j]
        cases hr : rest[j]? with
        | none => simp
        | some mm =>
          by_cases hmm : (load mm.path).isSome = true <;>
            simp [hmm, List.take_succ_cons, List.filterMap_cons, hl, Nat.add_assoc]

/-- Helper: when every artifact loads, collecting the page counts with
`filterMap` is plain mapping. -/
theorem filterMap_load_eq_map (load : String → Option Nat) :
    ∀ (l : List ExportMeta), (∀ m ∈ l, (load m.path).isSome = true) →
      l.filterMap (fun m => load m.path) =
        l.map (fun m => (load m.path).getD 0) := by
  intro l
  induction l with
  | nil => intro _; rfl
  | cons m rest ih =>
    intro hall
    obtain ⟨v, hv⟩ := Option.isSome_iff_exists.mp (hall m (by simp))
    simp [List.filterMap_cons, hv,
      ih (fun mm hmm => hall mm (List.mem_cons_of_mem m hmm))]

/-- C1: merging `N` records whose artifacts all load, with page counts
`[p1..pN]`, yields an output with exactly `p1+…+pN` pages and rewrites
the page index of the `i`-th record to the prefix sum `p1+…+p(i-1)`; in
general the output page count is the sum over the successfully loaded
artifacts only, every input record survives in order, and a record whose
artifact fails to load keeps its page index untouched while merging
continues. -/
theorem C1_merge_pages (load : String → Option Nat) (l : List ExportMeta) :
    ((∀ m ∈ l, (load m.path).isSome = true) →
      (mergeLoop load l 0).2 = (l.map (fun m => (load m.path).getD 0)).sum ∧
      ∀ i, i < l.length →
        ((mergeLoop load l 0).1[i]?).map ExportMeta.pageIndex =
          some (((l.take i).map (fun m => (load m.path).getD 0)).sum)) ∧
    (mergeLoop load l 0).1.length = l.length ∧
    (mergeLoop load l 0).2 = (l.filterMap (fun m => load m.path)).sum ∧
    (∀ (i : Nat) (m : ExportMeta), l[i]? = some m → load m.path = none →
      (mergeLoop load l 0).1[i]? = some m) := by
  refine ⟨?_, mergeLoop_length load l 0, by simpa using mergeLoop_total load l 0, ?_⟩
  · intro hall
    constructor
    · rw [mergeLoop_total load l 0, filterMap_load_eq_map load l hall]
      exact Nat.zero_add _
    · intro i hi
      have hm : l[i]? = some l[i] := List.getElem?_eq_getElem hi
      have hsome : (load (l[i]).path).isSome = true := hall _ (List.getElem_mem hi)
      rw [mergeLoop_get load l 0 i, hm]
      simp [hsome, filterMap_load_eq_map load (l.take i)
        (fun mm hmm => hall mm (List.mem_of_mem_take hmm))]
  · intro i m hm hnone
    rw [mergeLoop_get load l 0 i, hm]
    simp [hnone]

/-- C1 witness: two artifacts of 2 and 3 pages merge into 5 pages, and
the page index of the second record is rewritten to 2. -/
theorem C1_merge_pages_witness :
    (∀ m ∈ demoMetas, ((demoLoad m.path).isSome = true)) ∧
    (mergeLoop demoLoad demoMetas 0).2 = 5 ∧
    ((mergeLoop demoLoad demoMetas 0).1[1]?).map ExportMeta.pageIndex = some 2 := by
  have h := C1_merge_pages demoLoad demoMetas
  have hall : ∀ m ∈ demoMetas, ((demoLoad m.path).isSome = true) := by decide
  exact ⟨hall, (h.1 hall).1, (h.1 hall).2 1 (by decide)⟩

/-! Section: Bookmark hierarchy: stack lemmas -/

/-- Helper: reading a slot after a JS array assignment. -/
theorem stGet_stSet : ∀ (s : List (Option Nat)) (i v j : Nat),
    stGet (stSet s i v) j = if j = i then some v else stGet s j := by
  intro s
  induction s with
  | nil =>
    intro i
    induction i with
    | zero => intro v j; cases j <;> simp [stSet, stGet]
    | succ n ihn =>
      intro v j
      cases j with
      | zero => simp [stSet, stGet]
      | succ m => simp [stSet, stGet, ihn v m]
  | cons x xs ihs =>
    intro i v j
    cases i with
    | zero => cases j <;> simp [stSet, stGet]
    | succ n =>
      cases j with
      | zero => simp [stSet, stGet]
      | succ m => simp [stSet, stGet, ihs n v m]

/-- Helper: reading a slot after the clearing loop. -/
theorem stGet_stClear : ∀ (s : List (Option Nat)) (lvl j : Nat),
    stGet (stClear s lvl) j = if lvl ≤ j then none else stGet s j := by
  intro s
  induction s with
  | nil => intro lvl j; simp [stClear, stGet]
  | cons x xs ihs =>
    intro lvl j
    cases lvl with
    | zero =>
      cases j with
      | zero => simp [stClear, stGet]
      | succ m => simp [stClear, stGet, ihs 0 m]
    | succ n =>
      cases j with
      | zero => simp [stClear, stGet]
      | succ m => simp [stClear, stGet, ihs n m]

/-- Helper: appending an entry does not move the existing ones. -/
theorem infoAt_append_lt (infos : List BmInfo) (x : BmInfo) (j : Nat)
    (h : j < infos.length) : infoAt (infos ++ [x]) j = infoAt infos j := by
  unfold infoAt
  rw [List.getD_eq_getElem?_getD, List.getD_eq_getElem?_getD, List.getElem?_append,
    if_pos h]

/-- Helper: reading the just appended entry. -/
theorem infoAt_append_eq (infos : List BmInfo) (x : BmInfo) :
    infoAt (infos ++ [x]) infos.length = x := by
  unfold infoAt
  rw [List.getD_eq_getElem?_getD, List.getElem?_append]
  simp

/-- Helper: one first pass step preserves both structural invariants. -/
theorem bmStep_inv (infos : List BmInfo) (stack : List (Option Nat)) (h : Heading)
    (h1 : StackInv infos stack) (h2 : ParentInv infos) :
    StackInv (bmStep (infos, stack) h).1 (bmStep (infos, stack) h).2 ∧
    ParentInv (bmStep (infos, stack) h).1 := by
  constructor
  · intro m j hmj
    unfold bmStep at hmj
    dsimp only at hmj
    rw [stGet_stClear, stGet_stSet] at hmj
    by_cases hm1 : h.level ≤ m
    · rw [if_pos hm1] at hmj; cases hmj
    · rw [if_neg hm1] at hmj
      by_cases hm2 : m = h.level - 1
      · rw [if_pos hm2] at hmj
        have hj : j = infos.length := (Option.some.inj hmj).symm
        subst hj
        unfold bmStep
        dsimp only
        constructor
        · simp
        · rw [infoAt_append_eq]
          dsimp only
          omega
      · rw [if_neg hm2] at hmj
        obtain ⟨hjl, hje⟩ := h1 m j hmj
        unfold bmStep
        dsimp only
        constructor
        · simp; omega
        · rw [infoAt_append_lt infos _ j hjl]
          exact hje
  · intro i hi p hp
    unfold bmStep at hi hp ⊢
    dsimp only at hi hp ⊢
    rw [List.length_append, List.length_singleton] at hi
    by_cases hil : i < infos.length
    · rw [infoAt_append_lt infos _ i hil] at hp
      obtain ⟨hpl, hpe⟩ := h2 i hil p hp
      refine ⟨by simp; omega, ?_⟩
      rw [infoAt_append_lt infos _ i hil, infoAt_append_lt infos _ p hpl]
      exact hpe
    · have hieq : i = infos.length := by omega
      subst hieq
      rw [infoAt_append_eq] at hp
      dsimp only at hp
      by_cases hlev : 1 < h.level
      · rw [if_pos hlev] at hp
        obtain ⟨hpl, hpe⟩ := h1 (h.level - 2) p hp
        refine ⟨by simp; omega, ?_⟩
        rw [infoAt_append_lt infos _ p hpl, infoAt_append_eq]
        dsimp only
        omega
      · rw [if_neg hlev] at hp
        cases hp

/-- Helper: both invariants hold after folding any heading list from an
invariant state. -/
theorem bmFold_inv (hs : List Heading) :
    ∀ (st : List BmInfo × List (Option Nat)),
      StackInv st.1 st.2 → ParentInv st.1 →
      StackInv (hs.foldl bmStep st).1 (hs.foldl bmStep st).2 ∧
      ParentInv (hs.foldl bmStep st).1 := by
  induction hs with
  | nil => intro st a b; exact ⟨a, b⟩
  | cons h rest ih =>
    intro st a b
    have step := bmStep_inv st.1 st.2 h a b
    rw [List.foldl_cons]
    exact ih (bmStep st h) step.1 step.2

/-- Helper: the entry array built by the first pass satisfies the parent
invariant: every parent is one level above its child. -/
theorem firstPass_parentInv (hs : List Heading) : ParentInv (firstPass hs) := by
  have h0 : StackInv ([] : List BmInfo) [] := by
    intro m j hmj; cases m <;> cases hmj
  have h1 : ParentInv ([] : List BmInfo) := by
    intro i hi; simp at hi
  exact (bmFold_inv hs ([], []) h0 h1).2

/-- Helper: the sibling test is symmetric. -/
theorem keyEq_symm (infos : List BmInfo) (i j : Nat) :
    KeyEq infos i j ↔ KeyEq infos j i := by
  unfold KeyEq
  constructor <;> rintro ⟨a, b⟩ <;> exact ⟨a.symm, b.symm⟩

/-- Helper: the sibling test composes. -/
theorem keyEq_trans (infos : List BmInfo) (i j l : Nat)
    (hij : KeyEq infos i j) (hjl : KeyEq infos j l) : KeyEq infos i l := by
  obtain ⟨a1, a2⟩ := hij
  obtain ⟨b1, b2⟩ := hjl
  exact ⟨b1.trans a1, b2.trans a2⟩

/-- Helper: the backwards sibling scan finds exactly the largest matching
index below its bound. -/
theorem findPrevAux_some (infos : List BmInfo) (i : Nat) :
    ∀ (t j : Nat), (findPrevAux infos i t = some j ↔
      (j < t ∧ KeyEq infos i j ∧ ∀ l, j < l → l < t → ¬ KeyEq infos i l)) := by
  intro t
  induction t with
  | zero => intro j; simp [findPrevAux]
  | succ u ihu =>
    intro j
    unfold findPrevAux
    by_cases hk : KeyEq infos i u
    · rw [if_pos hk]
      constructor
      · intro hj
        have hj2 : u = j := Option.some.inj hj
        subst hj2
        exact ⟨Nat.lt_succ_self u, hk, fun l hl1 hl2 => by omega⟩
      · rintro ⟨hj1, hj2, hj3⟩
        have hju : j = u := by
          rcases Nat.lt_or_ge j u with hlt | hge
          · exact absurd hk (hj3 u hlt (Nat.lt_succ_self u))
          · omega
        rw [hju]
    · rw [if_neg hk, ihu j]
      constructor
      · rintro ⟨a, b, c⟩
        refine ⟨by omega, b, fun l hl1 hl2 => ?_⟩
        by_cases hlu : l = u
        · rw [hlu]; exact hk
        · exact c l hl1 (by omega)
      · rintro ⟨a, b, c⟩
        have hju : j ≠ u := fun he => hk (he ▸ b)
        exact ⟨by omega, b, fun l hl1 hl2 => c l hl1 (by omega)⟩

/-- Helper: the forward sibling scan finds exactly the smallest matching
index in its window. -/
theorem findNextAux_some (infos : List BmInfo) (j : Nat) :
    ∀ (fuel k r : Nat), (findNextAux infos j k fuel = some r ↔
      (k ≤ r ∧ r < k + fuel ∧ KeyEq infos j r ∧
        ∀ l, k ≤ l → l < r → ¬ KeyEq infos j l)) := by
  intro fuel
  induction fuel with
  | zero =>
    intro k r
    simp only [findNextAux]
    constructor
    · intro hc; cases hc
    · rintro ⟨a, b, -, -⟩; omega
  | succ u ihu =>
    intro k r
    unfold findNextAux
    by_cases hk : KeyEq infos j k
    · rw [if_pos hk]
      constructor
      · intro hc
        have hkr : k = r := Option.some.inj hc
        subst hkr
        exact ⟨Nat.le_refl k, by omega, hk, fun l h1 h2 => by omega⟩
      · rintro ⟨a, b, c, d⟩
        have hrk : r = k := by
          rcases Nat.eq_or_lt_of_le a with he | hlt
          · omega
          · exact absurd hk (d k (Nat.le_refl k) hlt)
        rw [hrk]
    · rw [if_neg hk, ihu (k + 1) r]
      constructor
      · rintro ⟨a, b, c, d⟩
        refine ⟨by omega, by omega, c, fun l h1 h2 => ?_⟩
        by_cases hlk : l = k
        · rw [hlk]; exact hk
        · exact d l (by omega) h2
      · rintro ⟨a, b, c, d⟩
        have hrk : r ≠ k := fun he => hk (he ▸ c)
        exact ⟨by omega, by omega, c, fun l h1 h2 => d l (by omega) h2⟩

/-- Helper: characterisation of the previous sibling of entry `i`. -/
theorem findPrev_some (infos : List BmInfo) (i j : Nat) :
    findPrev infos i = some j ↔
      (j < i ∧ KeyEq infos i j ∧ ∀ l, j < l → l < i → ¬ KeyEq infos i l) :=
  findPrevAux_some infos i i j

/-- Helper: characterisation of the next sibling of entry `j`. -/
theorem findNext_some (infos : List BmInfo) (j r : Nat) :
    findNext infos j = some r ↔
      (j < r ∧ r < infos.length ∧ KeyEq infos j r ∧
        ∀ l, j < l → l < r → ¬ KeyEq infos j l) := by
  unfold findNext
  rw [findNextAux_some]
  constructor
  · rintro ⟨a, b, c, d⟩
    exact ⟨by omega, by omega, c, fun l h1 h2 => d l (by omega) h2⟩
  · rintro ⟨a, b, c, d⟩
    exact ⟨by omega, by omega, c, fun l h1 h2 => d l (by omega) h2⟩

/-- Helper: previous and next sibling links are dual: `j` is the found
previous sibling of `i` exactly when `i` is the first later entry with
the same level and parent as `j`. -/
theorem findPrev_findNext (infos : List BmInfo) (i j : Nat)
    (hi : i < infos.length) :
    findPrev infos i = some j ↔ findNext infos j = some i := by
  rw [findPrev_some, findNext_some]
  constructor
  · rintro ⟨a, b, c⟩
    refine ⟨a, hi, (keyEq_symm infos i j).mp b, ?_⟩
    intro l h1 h2 hkl
    exact c l h1 h2 (keyEq_trans infos i j l b hkl)
  · rintro ⟨a, _, c, d⟩
    refine ⟨a, (keyEq_symm infos j i).mp c, ?_⟩
    intro l h1 h2 hkl
    exact d l h1 h2 (keyEq_trans infos j i l c hkl)

/-- Helper: effect of one linking step on the `Count` store. -/
theorem linkStep_count (infos : List BmInfo) (LM : LinkMaps) (i p : Nat) :
    (linkStep infos LM i).count p =
      if (infoAt infos i).parentIndex = some p then LM.count p + 1
      else LM.count p := by
  unfold linkStep
  dsimp only
  rcases hpi : (infoAt infos i).parentIndex with _ | p0 <;> simp only [hpi]
  · by_cases h0 : 0 < i <;> rcases hfp : findPrev infos i with _ | j <;>
      simp [h0, hfp, updO]
  · by_cases hpp : p = p0
    · subst hpp
      by_cases hf0 : LM.first p = none <;> by_cases h0 : 0 < i <;>
        rcases hfp : findPrev infos i with _ | j <;>
          simp [hf0, h0, hfp, updC, updO]
    · by_cases hf0 : LM.first p0 = none <;> by_cases h0 : 0 < i <;>
        rcases hfp : findPrev infos i with _ | j <;>
          simp [hf0, h0, hfp, updC, updO, hpp, Ne.symm hpp]

/-- Helper: effect of one linking step on the `First` store. -/
theorem linkStep_first (infos : List BmInfo) (LM : LinkMaps) (i p : Nat) :
    (linkStep infos LM i).first p =
      if (infoAt infos i).parentIndex = some p ∧ LM.first p = none then some i
      else LM.first p := by
  unfold linkStep
  dsimp only
  rcases hpi : (infoAt infos i).parentIndex with _ | p0 <;> simp only [hpi]
  · by_cases h0 : 0 < i <;> rcases hfp : findPrev infos i with _ | j <;>
      simp [h0, hfp, updO]
  · by_cases hpp : p = p0
    · subst hpp
      by_cases hf0 : LM.first p = none <;> by_cases h0 : 0 < i <;>
        rcases hfp : findPrev infos i with _ | j <;>
          simp [hf0, h0, hfp, updC, updO]
    · by_cases hf0 : LM.first p0 = none <;> by_cases h0 : 0 < i <;>
        rcases hfp : findPrev infos i with _ | j <;>
          simp [hf0, h0, hfp, updC, updO, hpp, Ne.symm hpp]

/-- Helper: effect of one linking step on the `Prev` store. -/
theorem linkStep_prev (infos : List BmInfo) (LM : LinkMaps) (i i' : Nat) :
    (linkStep infos LM i).prev i' =
      (match findPrev infos i with
       | some j => if 0 < i ∧ i' = i then some j else LM.prev i'
       | none => LM.prev i') := by
  unfold linkStep
  dsimp only
  rcases hpi : (infoAt infos i).parentIndex with _ | p0 <;> simp only [hpi]
  · by_cases h0 : 0 < i <;> rcases hfp : findPrev infos i with _ | j <;>
      by_cases hii : i' = i <;> simp [h0, hfp, hii, updO]
  · by_cases hf0 : LM.first p0 = none <;> by_cases h0 : 0 < i <;>
      rcases hfp : findPrev infos i with _ | j <;>
        by_cases hii : i' = i <;> simp [hf0, h0, hfp, hii, updO]

/-- Helper: effect of one linking step on the `Next` store. -/
theorem linkStep_next (infos : List BmInfo) (LM : LinkMaps) (i j' : Nat) :
    (linkStep infos LM i).next j' =
      (match findPrev infos i with
       | some j => if 0 < i ∧ j' = j then some i else LM.next j'
       | none => LM.next j') := by
  unfold linkStep
  dsimp only
  rcases hpi : (infoAt infos i).parentIndex with _ | p0 <;> simp only [hpi]
  · by_cases h0 : 0 < i <;> rcases hfp : findPrev infos i with _ | j <;>
      simp [h0, hfp, updO]
  · by_cases hf0 : LM.first p0 = none <;> by_cases h0 : 0 < i <;>
      rcases hfp : findPrev infos i with _ | j <;>
        simp [hf0, h0, hfp, updO]

/-- Helper: closed form of the linking pass over the first `m` entries:
`Count` and `First` reflect the children recorded so far, `Prev` is the
backwards sibling scan, and `Next` holds the dual forward links. -/
theorem linkPassUpTo_spec (infos : List BmInfo) :
    ∀ m, m ≤ infos.length →
      (∀ p, ((List.range m).foldl (linkStep infos) linkInit).count p =
        ((List.range m).filter
          (fun i => decide ((infoAt infos i).parentIndex = some p))).length) ∧
      (∀ p, ((List.range m).foldl (linkStep infos) linkInit).first p =
        ((List.range m).filter
          (fun i => decide ((infoAt infos i).parentIndex = some p))).head?) ∧
      (∀ i, ((List.range m).foldl (linkStep infos) linkInit).prev i =
        if i < m then findPrev infos i else none) ∧
      (∀ j, ((List.range m).foldl (linkStep infos) linkInit).next j =
        (match findNext infos j with
         | some k => if k < m then some k else none
         | none => none)) := by
  intro m
  induction m with
  | zero =>
    intro _
    refine ⟨fun p => rfl, fun p => rfl, fun i => by simp [linkInit], fun j => ?_⟩
    cases hfn : findNext infos j <;> simp [linkInit, hfn]
  | succ m ihm =>
    intro hm1
    have hmn : m < infos.length := by omega
    obtain ⟨ic, ifr, ip, inx⟩ := ihm (by omega)
    rw [List.range_succ]
    refine ⟨?_, ?_, ?_, ?_⟩
    · intro p
      rw [List.foldl_append, List.foldl_cons, List.foldl_nil, linkStep_count, ic p,
        List.filter_append]
      by_cases hp : (infoAt infos m).parentIndex = some p
      · simp [hp]
      · simp [hp]
    · intro p
      rw [List.foldl_append, List.foldl_cons, List.foldl_nil, linkStep_first, ifr p,
        List.filter_append]
      by_cases hp : (infoAt infos m).parentIndex = some p
      · by_cases hf0 : ((List.range m).filter
            (fun i => decide ((infoAt infos i).parentIndex = some p))).head? = none
        · rw [if_pos ⟨hp, hf0⟩, List.head?_eq_none_iff.mp hf0]
          simp [hp]
        · rw [if_neg (fun hc => hf0 hc.2)]
          obtain ⟨a, ha⟩ := Option.ne_none_iff_exists.mp hf0
          rw [List.head?_append, ← ha]
          simp
      · simp [hp]
    · intro i
      rw [List.foldl_append, List.foldl_cons, List.foldl_nil, linkStep_prev]
      rcases hfp : findPrev infos m with _ | j
      · simp only [ip i]
        by_cases h1 : i < m
        · rw [if_pos h1, if_pos (by omega)]
        · by_cases h2 : i = m
          · subst h2
            rw [if_neg h1, if_pos (by omega), hfp]
          · rw [if_neg h1, if_neg (by omega)]
      · by_cases h0 : 0 < m
        · by_cases h2 : i = m
          · subst h2
            simp only [if_pos (And.intro h0 rfl)]
            simp [h0, hfp]
          · simp only [if_neg (fun hc : 0 < m ∧ i = m => h2 hc.2), ip i]
            by_cases h1 : i < m
            · rw [if_pos h1, if_pos (by omega)]
            · rw [if_neg h1, if_neg (by omega)]
        · exfalso
          obtain ⟨hj0, -, -⟩ := (findPrev_some infos m j).mp hfp
          omega
    · intro j'
      rw [List.foldl_append, List.foldl_cons, List.foldl_nil, linkStep_next]
      rcases hfp : findPrev infos m with _ | j
      · simp only [inx j']
        cases hfn : findNext infos j' with
        | none => rfl
        | some k =>
          have hkm : k ≠ m := by
            intro he
            subst he
            have h2 := (findPrev_findNext infos k j' hmn).mpr hfn
            rw [hfp] at h2
            cases h2
          dsimp only
          by_cases hk : k < m
          · rw [if_pos hk, if_pos (by omega)]
          · rw [if_neg hk, if_neg (by omega)]
      · by_cases h0 : 0 < m
        · by_cases hjj : j' = j
          · subst hjj
            simp only [if_pos (And.intro h0 rfl)]
            have hfn : findNext infos j' = some m :=
              (findPrev_findNext infos m j' hmn).mp hfp
            simp [hfn, h0]
          · simp only [if_neg (fun hc : 0 < m ∧ j' = j => hjj hc.2), inx j']
            cases hfn : findNext infos j' with
            | none => rfl
            | some k =>
              have hkm : k ≠ m := by
                intro he
                subst he
                have h2 := (findPrev_findNext infos k j' hmn).mpr hfn
                rw [hfp] at h2
                exact hjj (Option.some.inj h2).symm
              dsimp only
              by_cases hk : k < m
              · rw [if_pos hk, if_pos (by omega)]
              · rw [if_neg hk, if_neg (by omega)]
        · exfalso
          obtain ⟨hj0, -, -⟩ := (findPrev_some infos m j).mp hfp
          omega

/-- Helper: closed form of the full linking pass. -/
theorem linkPass_spec (infos : List BmInfo) :
    (∀ p, (linkPass infos).count p = (childrenList infos p).length) ∧
    (∀ p, (linkPass infos).first p = (childrenList infos p).head?) ∧
    (∀ i, (linkPass infos).prev i =
      if i < infos.length then findPrev infos i else none) ∧
    (∀ j, (linkPass infos).next j = findNext infos j) := by
  unfold linkPass childrenList
  obtain ⟨c, f, pr, nx⟩ := linkPassUpTo_spec infos infos.length (Nat.le_refl _)
  refine ⟨c, f, pr, fun j => ?_⟩
  rw [nx j]
  cases hfn : findNext infos j with
  | none => rfl
  | some k =>
    obtain ⟨-, hk, -, -⟩ := (findNext_some infos j k).mp hfn
    dsimp only
    rw [if_pos hk]

/-- Helper: membership in the recorded children of `p`. -/
theorem childrenList_mem (infos : List BmInfo) (p c : Nat) :
    c ∈ childrenList infos p ↔
      (c < infos.length ∧ (infoAt infos c).parentIndex = some p) := by
  unfold childrenList
  simp [List.mem_filter, List.mem_range]

/-- Helper: two children of the same parent pass the sibling test (they
share the parent by construction, and the level because every parent
sits one level above its children). -/
theorem childrenList_keyEq (infos : List BmInfo) (p : Nat) (hpar : ParentInv infos)
    (c d : Nat) (hc : c ∈ childrenList infos p) (hd : d ∈ childrenList infos p) :
    KeyEq infos c d := by
  obtain ⟨hc1, hc2⟩ := (childrenList_mem infos p c).mp hc
  obtain ⟨hd1, hd2⟩ := (childrenList_mem infos p d).mp hd
  obtain ⟨hp1, hp2⟩ := hpar c hc1 p hc2
  obtain ⟨hq1, hq2⟩ := hpar d hd1 p hd2
  exact ⟨hq2.symm.trans hp2, hd2.trans hc2.symm⟩

/-- Helper: an entry passing the sibling test against a child of `p` is
itself a child of `p`. -/
theorem childrenList_of_keyEq (infos : List BmInfo) (p c k : Nat)
    (hc : c ∈ childrenList infos p) (hk1 : k < infos.length)
    (hk : KeyEq infos c k) : k ∈ childrenList infos p := by
  obtain ⟨hc1, hc2⟩ := (childrenList_mem infos p c).mp hc
  exact (childrenList_mem infos p k).mpr ⟨hk1, hk.2.trans hc2⟩

/-- Helper: the recorded children are listed in increasing entry order. -/
theorem childrenList_sorted (infos : List BmInfo) (p : Nat) :
    (childrenList infos p).Pairwise (· < ·) := by
  unfold childrenList
  exact List.Pairwise.filter _ (List.pairwise_lt_range _)

/-- Helper: inside the children list of `p`, the forward sibling search
from a child finds exactly the next child in the list. -/
theorem findNext_in_children (infos : List BmInfo) (p : Nat) (hpar : ParentInv infos)
    (t : List Nat) (c : Nat) (s' : List Nat)
    (hC : childrenList infos p = t ++ c :: s') :
    findNext infos c = s'.head? := by
  have hpw : (childrenList infos p).Pairwise (· < ·) := childrenList_sorted infos p
  rw [hC, List.pairwise_append] at hpw
  obtain ⟨hpt, hpcs, hcross⟩ := hpw
  rw [List.pairwise_cons] at hpcs
  obtain ⟨hcs, hps⟩ := hpcs
  have hcmem : c ∈ childrenList infos p := by rw [hC]; simp
  have hmem_s : ∀ x, x ∈ childrenList infos p → c < x → x ∈ s' := by
    intro x hx hcx
    rw [hC] at hx
    rcases List.mem_append.mp hx with hxt | hxc
    · exact absurd (hcross x hxt c (by simp)) (by omega)
    · rcases List.mem_cons.mp hxc with hxeq | hxs
      · omega
      · exact hxs
  cases s' with
  | nil =>
    cases hfn : findNext infos c with
    | none => rfl
    | some r =>
      obtain ⟨hr1, hr2, hr3, -⟩ := (findNext_some infos c r).mp hfn
      have hrc := childrenList_of_keyEq infos p c r hcmem hr2 hr3
      have := hmem_s r hrc hr1
      cases this
  | cons d s'' =>
    have hdmem : d ∈ childrenList infos p := by rw [hC]; simp
    have hd1 : c < d := hcs d (by simp)
    have hd2 : d < infos.length := ((childrenList_mem infos p d).mp hdmem).1
    have hd3 : KeyEq infos c d := childrenList_keyEq infos p hpar c d hcmem hdmem
    refine (findNext_some infos c d).mpr ⟨hd1, hd2, hd3, ?_⟩
    intro l h1 h2 hkl
    have hl1 : l < infos.length := by omega
    have hlC := childrenList_of_keyEq infos p c l hcmem hl1 hkl
    have hls := hmem_s l hlC h1
    rcases List.mem_cons.mp hls with he | hsl
    · omega
    · have := (List.pairwise_cons.mp hps).1 l hsl
      omega

/-- Helper: traversing `Next` links from the head of any suffix of the
children list of `p` re-enumerates exactly that suffix. -/
theorem chainFrom_suffix (infos : List BmInfo) (p : Nat) (hpar : ParentInv infos) :
    ∀ (s t : List Nat), childrenList infos p = t ++ s →
      ∀ fuel, s.length ≤ fuel →
        chainFrom (linkPass infos).next s.head? fuel = s := by
  intro s
  induction s with
  | nil =>
    intro t hC fuel hfl
    cases fuel <;> rfl
  | cons c s' ihs =>
    intro t hC fuel hfl
    cases fuel with
    | zero => simp at hfl
    | succ f =>
      have hnext : (linkPass infos).next c = s'.head? := by
        rw [(linkPass_spec infos).2.2.2 c]
        exact findNext_in_children infos p hpar t c s' hC
      show c :: chainFrom (linkPass infos).next ((linkPass infos).next c) f = c :: s'
      rw [hnext, ihs (t ++ [c]) (by simp [hC]) f (by simpa using hfl)]

/-- Helper: the `First`/`Next` traversal from an entry enumerates
exactly its recorded children. -/
theorem childChain_eq_children (infos : List BmInfo) (hpar : ParentInv infos)
    (p : Nat) : childChain infos p = childrenList infos p := by
  unfold childChain
  rw [(linkPass_spec infos).2.1 p]
  refine chainFrom_suffix infos p hpar (childrenList infos p) [] (by simp)
    infos.length ?_
  have h1 := List.length_filter_le
    (fun i => decide ((infoAt infos i).parentIndex = some p)) (List.range infos.length)
  unfold childrenList
  simpa using h1

/-- Helper: a set `Prev` link is always answered by the dual `Next`
link. -/
theorem linkPass_prev_next (infos : List BmInfo) (i j : Nat)
    (h : (linkPass infos).prev i = some j) :
    (linkPass infos).next j = some i := by
  have hp := (linkPass_spec infos).2.2.1 i
  rw [h] at hp
  by_cases hi : i < infos.length
  · rw [if_pos hi] at hp
    rw [(linkPass_spec infos).2.2.2 j]
    exact (findPrev_findNext infos i j hi).mp hp.symm
  · rw [if_neg hi] at hp
    cases hp

/-- Helper: every child that is not the first child of its parent has
its `Prev` link set — to the previous sibling in creation order — and
that sibling has the dual `Next` link back. -/
theorem childrenList_prev_exists (infos : List BmInfo) (hpar : ParentInv infos)
    (p i : Nat) (hi : i ∈ childrenList infos p)
    (hnf : (linkPass infos).first p ≠ some i) :
    ∃ j, (linkPass infos).prev i = some j ∧ (linkPass infos).next j = some i := by
  obtain ⟨t, s', hC⟩ := List.append_of_mem hi
  have hfirst : (linkPass infos).first p = (childrenList infos p).head? :=
    (linkPass_spec infos).2.1 p
  rcases List.eq_nil_or_concat t with rfl | ⟨t', j, rfl⟩
  · rw [hC] at hfirst
    simp at hfirst
    exact absurd hfirst hnf
  · rw [List.concat_eq_append] at hC
    have hpw : (childrenList infos p).Pairwise (· < ·) := childrenList_sorted infos p
    rw [hC, List.pairwise_append] at hpw
    obtain ⟨hpt, hpis, hcross⟩ := hpw
    have hjt : j ∈ t' ++ [j] := by simp
    have hji : j < i := hcross j hjt i (by simp)
    have hjC : j ∈ childrenList infos p := by
      rw [hC]
      exact List.mem_append.mpr (Or.inl hjt)
    have hin : i < infos.length := ((childrenList_mem infos p i).mp hi).1
    have hkey : KeyEq infos i j := childrenList_keyEq infos p hpar i j hi hjC
    have hmax : ∀ l, j < l → l < i → ¬ KeyEq infos i l := by
      intro l hjl hli hkl
      have hln : l < infos.length := by omega
      have hlC : l ∈ childrenList infos p := childrenList_of_keyEq infos p i l hi hln hkl
      rw [hC] at hlC
      rcases List.mem_append.mp hlC with hlt | hlis
      · rcases List.mem_append.mp hlt with hlt' | hlj
        · obtain ⟨-, -, hcr⟩ := List.pairwise_append.mp hpt
          have := hcr l hlt' j (by simp)
          omega
        · simp at hlj
          omega
      · rcases List.mem_cons.mp hlis with he | hls
        · omega
        · have := (List.pairwise_cons.mp hpis).1 l hls
          omega
    have hfp : findPrev infos i = some j := (findPrev_some infos i j).mpr ⟨hji, hkey, hmax⟩
    have hprev : (linkPass infos).prev i = some j := by
      rw [(linkPass_spec infos).2.2.1 i, if_pos hin, hfp]
    exact ⟨j, hprev, linkPass_prev_next infos i j hprev⟩

/-- C2: in `buildBookmarkHierarchy`, a heading at level `L` takes as
parent the entry currently on the stack at level `L − 1` (none — a
root — when `L = 1` or the slot is unset), and after the insertion every
stack slot at levels deeper than `L` is invalidated; for heading
sequences whose levels climb by exactly one or return to an ancestor
level, the linked structure is consistent: the children of every entry
traversed from its `First` link via `Next` links are exactly its
recorded children and number its `Count`, every child that is not the
first child of its parent has a `Prev` link, and every set `Prev` link
is pointed back to by the `Next` link of that sibling. -/
theorem C2_bookmark_hierarchy (st : List BmInfo × List (Option Nat)) (h : Heading)
    (hs : List Heading) :
    (bmStep st h).1.getLast? = some (BmInfo.mk h.text h.level
      (if 1 < h.level then stGet st.2 (h.level - 2) else none)) ∧
    (∀ j, h.level ≤ j → stGet (bmStep st h).2 j = none) ∧
    (niceLevels (hs.map Heading.level) = true →
      (∀ p, childChain (firstPass hs) p = childrenList (firstPass hs) p ∧
        (childChain (firstPass hs) p).length = (linkPass (firstPass hs)).count p) ∧
      (∀ p i, i ∈ childrenList (firstPass hs) p →
        (linkPass (firstPass hs)).first p ≠ some i →
        ∃ j, (linkPass (firstPass hs)).prev i = some j ∧
          (linkPass (firstPass hs)).next j = some i) ∧
      (∀ i j, (linkPass (firstPass hs)).prev i = some j →
        (linkPass (firstPass hs)).next j = some i)) := by
  refine ⟨?_, ?_, ?_⟩
  · unfold bmStep
    dsimp only
    exact List.getLast?_concat _
  · intro j hj
    unfold bmStep
    dsimp only
    rw [stGet_stClear, if_pos hj]
  · intro _nice
    have hpar := firstPass_parentInv hs
    refine ⟨?_, ?_, ?_⟩
    · intro p
      have he := childChain_eq_children (firstPass hs) hpar p
      refine ⟨he, ?_⟩
      rw [he, (linkPass_spec (firstPass hs)).1 p]
    · intro p i hi hnf
      exact childrenList_prev_exists (firstPass hs) hpar p i hi hnf
    · intro i j hp
      exact linkPass_prev_next (firstPass hs) i j hp

/-- C2 witness: for the heading levels 1, 2, 2 the discipline holds, the
children of the first entry are enumerated by its links and number its
count, the second section — a child of the title but not its first
child — has a `Prev` link answered by the dual `Next` link, and the
`Prev` link of the second section is answered by the `Next` link of the
first. -/
theorem C2_bookmark_hierarchy_witness :
    niceLevels (demoHeadings.map Heading.level) = true ∧
    childChain (firstPass demoHeadings) 0 = childrenList (firstPass demoHeadings) 0 ∧
    (childChain (firstPass demoHeadings) 0).length =
      (linkPass (firstPass demoHeadings)).count 0 ∧
    (2 ∈ childrenList (firstPass demoHeadings) 0 ∧
      (linkPass (firstPass demoHeadings)).first 0 ≠ some 2 ∧
      ∃ j, (linkPass (firstPass demoHeadings)).prev 2 = some j ∧
        (linkPass (firstPass demoHeadings)).next j = some 2) ∧
    (linkPass (firstPass demoHeadings)).next 1 = some 2 := by
  have h := (C2_bookmark_hierarchy ([], []) { level := 1, text := urlA, id := baseA }
    demoHeadings).2.2 (by decide)
  refine ⟨by decide, (h.1 0).1, (h.1 0).2, ⟨by decide, by decide, ?_⟩,
    h.2.2 2 1 (by decide)⟩
  exact h.2.1 0 2 (by decide) (by decide)

end DocuPdf
